import Mathlib

/-!
Verification of the SRM recruiting-agency CRM against its natural-language
specification.  The repository is a single-page front end (`part_001`, the
compiled `App` component), an API helper (`frontend/src/api.js`) and two SQL
schemas.  Pure front-end logic (tax overlay, money formatting, CSV export,
form validation, the replacement selector) is embedded directly from the
source; the FastAPI backend is not part of the repository, so the read-side
queries (`list_pipeline`, `get_earnings`) and the persistence of creates are
modelled from the specification where noted.  JavaScript numbers are
modelled as exact rationals.
-/

namespace SRM

/-- Calendar date (year, month, day) as stored in the DATE columns of the
schema (`paid_date`, `date_contacted`, ...). -/
structure Date where
  year : Nat
  month : Nat
  day : Nat
  deriving DecidableEq, Repr

/-- Numeric key giving the lexicographic (year, month, day) order for the
dates that fit the schema (month and day below 100), matching SQL DATE
comparison. -/
def Date.toKey (d : Date) : Nat := d.year * 10000 + d.month * 100 + d.day

/-- Gregorian leap-year test. -/
def isLeapYear (y : Nat) : Bool := (y % 4 == 0 && y % 100 != 0) || y % 400 == 0

/-- Number of days of month `m` of year `y`. -/
def daysInMonth (y m : Nat) : Nat :=
  if m = 2 then (if isLeapYear y then 29 else 28)
  else if m = 4 ∨ m = 6 ∨ m = 9 ∨ m = 11 then 30
  else 31

/-- A date that can actually be stored in a DATE column: day and month in
range for the given month length. -/
def validDate (d : Date) : Prop :=
  1 ≤ d.month ∧ d.month ≤ 12 ∧ 1 ≤ d.day ∧ d.day ≤ daysInMonth d.year d.month

instance (d : Date) : Decidable (validDate d) := by
  unfold validDate; infer_instance

/-- Result of the tax overlay computed by the reports view. -/
structure TaxBreakdown where
  singleTax : ℚ
  militaryTax : ℚ
  esv : ℚ
  totalTax : ℚ
  net : ℚ
  deriving DecidableEq, Repr

/-- Tax overlay block of the reports tab (`part_001` lines 876-881): a pure
function of the report total, computed at render time and never persisted. -/
def taxOverlay (income : ℚ) : TaxBreakdown :=
  let singleTax := income * 0.05
  let militaryTax := income * 0.01
  let esv : ℚ := 1902.34
  let totalTax := singleTax + militaryTax + esv
  let net := income - totalTax
  { singleTax := singleTax, militaryTax := militaryTax, esv := esv,
    totalTax := totalTax, net := net }

/-- Decimal digits of `n`, most significant first, with explicit descent
bound (`n + 1` steps always suffice); used to model JavaScript
number-to-string conversions by plain structural recursion. -/
def natDigitsAux : Nat → Nat → List Char
  | 0, _ => []
  | f + 1, n =>
    if n < 10 then [Char.ofNat (48 + n)]
    else natDigitsAux f (n / 10) ++ [Char.ofNat (48 + n % 10)]

/-- Decimal digits of `n`, most significant first. -/
def natDigits (n : Nat) : List Char := natDigitsAux (n + 1) n

/-- Two-digit zero-padded rendering of `n < 100`. -/
def pad2 (n : Nat) : List Char :=
  if n < 10 then '0' :: natDigits n else natDigits n

/-- Character list of `Number.prototype.toFixed(2)`: the sign of the value,
then its magnitude rounded half-up to hundredths with exactly two
fractional digits (ECMAScript ToFixed extracts the sign first and rounds
the magnitude, ties toward the larger candidate). -/
def toFixed2Chars (q : ℚ) : List Char :=
  let n : Nat := ⌊|q| * 100 + 1 / 2⌋₊
  (if q < 0 then ['-'] else []) ++ natDigits (n / 100) ++ '.' :: pad2 (n % 100)

/-- String form of `value.toFixed(2)`. -/
def toFixed2 (q : ℚ) : String := String.mk (toFixed2Chars q)

/-- Dot-to-comma substitution of `formatMoneyUA`; the `.replace(".", ",")`
of a one-character pattern acts characterwise. -/
def dotToComma (c : Char) : Char := if c = '.' then ',' else c

/-- Money renderer `formatMoneyUA` (`part_001` line 343):
`value.toFixed(2).replace(".", ",")`. -/
def formatMoneyUA (q : ℚ) : String :=
  String.mk ((toFixed2Chars q).map dotToComma)

/-- Character class of the escape regex in `downloadCSV` (`part_001`
line 59): quote, comma, newline or semicolon triggers quoting. -/
def needsQuoteChar (c : Char) : Bool := c == '"' || c == ',' || c == '\n' || c == ';'

/-- True when the `downloadCSV` escape wraps the value in quotes. -/
def needsQuote (s : List Char) : Bool := s.any needsQuoteChar

/-- Quote doubling of the escape: every '"' becomes two quotes. -/
def escQuotes : List Char → List Char
  | [] => []
  | c :: cs => if c = '"' then '"' :: '"' :: escQuotes cs else c :: escQuotes cs

/-- Escape of one CSV value (`part_001` lines 57-60), at character level:
quoted with doubled inner quotes when it contains a character of the class,
otherwise emitted raw. -/
def escapeField (s : List Char) : List Char :=
  if needsQuote s then '"' :: (escQuotes s ++ ['"']) else s

/-- Join with a one-character separator, as `Array.prototype.join`. -/
def joinSep (sep : Char) : List (List Char) → List Char
  | [] => []
  | [f] => f
  | f :: g :: fs => f ++ sep :: joinSep sep (g :: fs)

/-- One data line of the CSV (`part_001` line 62): the escaped values of a
row joined by semicolons. -/
def csvLine (r : List (List Char)) : List Char := joinSep ';' (r.map escapeField)

/-- The whole CSV text (`part_001` line 62): the unescaped header joined by
semicolons, then one line per row, all lines joined by newlines. -/
def csvChars (cols : List (List Char)) (rows : List (List (List Char))) : List Char :=
  joinSep '\n' (joinSep ';' cols :: rows.map csvLine)

/-- String form of the generated CSV for string-valued rows. -/
def csvString (cols : List String) (rows : List (List String)) : String :=
  String.mk (csvChars (cols.map String.data)
    (rows.map (fun r => r.map String.data)))

/-- Reader for the export format, modelled from the specification
(semicolon-delimited, values double-quoted, quotes escaped by doubling): a
single pass holding the in-quotes state, the current field, the current
record and the finished records.  An unquoted semicolon ends a field, an
unquoted newline ends a record, a doubled quote inside quotes is a literal
quote. -/
def scan : List Char → Bool → List Char → List (List Char) →
    List (List (List Char)) → List (List (List Char))
  | [], _, fld, cur, acc => acc ++ [cur ++ [fld]]
  | [c], true, fld, cur, acc =>
    if c = '"' then acc ++ [cur ++ [fld]]
    else acc ++ [cur ++ [fld ++ [c]]]
  | c :: d :: cs, true, fld, cur, acc =>
    if c = '"' then
      if d = '"' then scan cs true (fld ++ ['"']) cur acc
      else scan (d :: cs) false fld cur acc
    else scan (d :: cs) true (fld ++ [c]) cur acc
  | c :: cs, false, fld, cur, acc =>
    if c = '"' then scan cs true fld cur acc
    else if c = ';' then scan cs false [] (cur ++ [fld]) acc
    else if c = '\n' then scan cs false [] [] (acc ++ [cur ++ [fld]])
    else scan cs false (fld ++ [c]) cur acc

/-- Parse a CSV text into its records of fields. -/
def parseCSV (s : String) : List (List String) :=
  (scan s.data false [] [] []).map (fun r => r.map String.mk)

/-- A row handed to `downloadCSV`: an association list from column name to
value, the values already JS-stringified; `none` stands for a null (or
undefined) value stored under the key. -/
abbrev Row : Type := List (String × Option String)

/-- Insertion into the insertion-ordered key set (`Set.prototype.add`). -/
def insKey (acc : List String) (k : String) : List String :=
  if k ∈ acc then acc else acc ++ [k]

/-- Keys of one row added in order (`part_001` lines 50-53). -/
def addKeys (acc : List String) (row : Row) : List String :=
  row.foldl (fun a kv => insKey a kv.1) acc

/-- Column collection of `downloadCSV` (`part_001` lines 50-55): the keys
of all rows accumulated across the reduce. -/
def collectCols (rows : List Row) : List String :=
  rows.foldl addKeys []

/-- Fold of `insKey` over a plain key list. -/
def insAll (a : List String) (l : List String) : List String := l.foldl insKey a

/-- First-occurrence deduplication: the specification-level reading of the
header, the union of the keys of all input rows in first-encounter order. -/
def dedupFirst : List String → List String
  | [] => []
  | k :: ks => k :: dedupFirst (ks.filter (fun x => x ≠ k))
termination_by l => l.length
decreasing_by
  simp only [List.length_cons]
  exact Nat.lt_succ_of_le (List.length_filter_le _ _)

/-- Cell read `r[c]` composed with the escape's null handling (`part_001`
line 58): a missing key (undefined) or a null value renders as the empty
string. -/
def cellValue (row : Row) (c : String) : List Char :=
  match row.lookup c with
  | some (some s) => s.data
  | _ => []

/-- The CSV text `downloadCSV` builds (`part_001` lines 48-62) for
association-list rows: collected columns as header, then one line per row
reading each collected column through `cellValue`. -/
def rowsCSV (rows : List Row) : String :=
  String.mk (csvChars ((collectCols rows).map String.data)
    (rows.map (fun r => (collectCols rows).map (cellValue r))))

/-- Replace every null cell value of a row by the empty string. -/
def nullToEmpty (r : Row) : Row :=
  r.map (fun kv => (kv.1, some (kv.2.getD "")))

/-- Client row of the store. -/
structure Client where
  id : Nat
  name : String
  deriving DecidableEq, Repr

/-- Recruiter row of the store. -/
structure Recruiter where
  id : Nat
  name : String
  deriving DecidableEq, Repr

/-- Candidate row of the store (fields used by the read-side queries). -/
structure Candidate where
  id : Nat
  full_name : String
  deriving DecidableEq, Repr

/-- Vacancy row of the store. -/
structure Vacancy where
  id : Nat
  client_id : Nat
  title : String
  deriving DecidableEq, Repr

/-- Application row of the store (fields used by the read-side queries). -/
structure AppRow where
  id : Nat
  candidate_id : Nat
  vacancy_id : Nat
  recruiter_id : Nat
  status : String
  deriving DecidableEq, Repr

/-- Payment row of the store. -/
structure Payment where
  id : Nat
  application_id : Nat
  paid_date : Date
  amount : ℚ
  deriving DecidableEq, Repr

/-- The relational store (schema tables used by the read-side queries). -/
structure Db where
  clients : List Client
  recruiters : List Recruiter
  candidates : List Candidate
  vacancies : List Vacancy
  applications : List AppRow
  payments : List Payment
  deriving Repr

/-- Caller identity delivered by the access boundary: role and, for
non-admin users, the bound recruiter id. -/
structure Caller where
  role : String
  recruiter_id : Nat
  deriving DecidableEq, Repr

/-- Filter set of `list_pipeline`. -/
structure Filters where
  client_id : Option Nat
  recruiter_id : Option Nat
  status : Option String
  search : Option String
  deriving DecidableEq, Repr

/-- Lowercased characters of a string, for the case-insensitive search. -/
def lowerChars (s : String) : List Char := s.data.map Char.toLower

/-- True when the first list starts the second. -/
def leadsWith : List Char → List Char → Bool
  | [], _ => true
  | _ :: _, [] => false
  | p :: ps, c :: cs => p == c && leadsWith ps cs

/-- Substring test at character level. -/
def isInfixB (p l : List Char) : Bool :=
  (List.range (l.length + 1)).any (fun i => leadsWith p (l.drop i))

/-- Vacancy lookup by id. -/
def findVacancy (db : Db) (vid : Nat) : Option Vacancy :=
  db.vacancies.find? (fun v => v.id == vid)

/-- Application lookup by id. -/
def findApp (db : Db) (aid : Nat) : Option AppRow :=
  db.applications.find? (fun a => a.id == aid)

/-- Client name by id, empty when absent. -/
def clientName (db : Db) (cid : Nat) : String :=
  ((db.clients.find? (fun c => c.id == cid)).map Client.name).getD ""

/-- Recruiter name by id, empty when absent. -/
def recruiterName (db : Db) (rid : Nat) : String :=
  ((db.recruiters.find? (fun r => r.id == rid)).map Recruiter.name).getD ""

/-- Candidate name by id, empty when absent. -/
def candidateName (db : Db) (cid : Nat) : String :=
  ((db.candidates.find? (fun c => c.id == cid)).map Candidate.full_name).getD ""

/-- Vacancy title by id, empty when absent. -/
def vacancyTitle (db : Db) (vid : Nat) : String :=
  ((findVacancy db vid).map Vacancy.title).getD ""

/-- Client of an application through its vacancy. -/
def appClientId (db : Db) (a : AppRow) : Option Nat :=
  (findVacancy db a.vacancy_id).map Vacancy.client_id

/-- Modelled from the spec: the filter predicate of the Pipeline Query
(spec section 4.1, the backend query code is not in the repository):
exact-match client (through the Vacancy), recruiter and status equality
filters plus a case-insensitive substring search over candidate full name,
vacancy title, client name and recruiter name, all combined with AND. -/
def rowMatches (db : Db) (f : Filters) (a : AppRow) : Bool :=
  (match f.client_id with
   | none => true
   | some cid =>
     match appClientId db a with
     | none => false
     | some c => c == cid) &&
  (match f.recruiter_id with
   | none => true
   | some rid => a.recruiter_id == rid) &&
  (match f.status with
   | none => true
   | some st => a.status == st) &&
  (match f.search with
   | none => true
   | some s =>
     isInfixB (lowerChars s)
       (lowerChars (candidateName db a.candidate_id) ++
        lowerChars (vacancyTitle db a.vacancy_id) ++
        lowerChars (clientName db ((appClientId db a).getD 0)) ++
        lowerChars (recruiterName db a.recruiter_id)))

/-- Modelled from the spec: role scoping applied first and non-overridable
(spec section 4.1): a non-admin caller's `recruiter_id` filter is forced to
the caller's own recruiter id regardless of the supplied value. -/
def effFilters (f : Filters) (caller : Caller) : Filters :=
  if caller.role ≠ "admin" then { f with recruiter_id := some caller.recruiter_id }
  else f

/-- Modelled from the spec: the backend `list_pipeline` (spec sections 4.1
and 6; its server code is not in the repository).  Result ordering
(created_at descending) is not modelled: rows come back in store order, and
the claims settled against this model concern membership only. -/
def listPipeline (db : Db) (f : Filters) (caller : Caller) : List AppRow :=
  db.applications.filter (rowMatches db (effFilters f caller))

/-- First day of the report month. -/
def monthFirst (y m : Nat) : Date := ⟨y, m, 1⟩

/-- Last day of the report month. -/
def monthLast (y m : Nat) : Date := ⟨y, m, daysInMonth y m⟩

/-- Inclusive window test of spec section 4.3 step 1:
`paid_date` between the first and last day of the month. -/
def inWindow (y m : Nat) (d : Date) : Bool :=
  Nat.ble (monthFirst y m).toKey d.toKey && Nat.ble d.toKey (monthLast y m).toKey

/-- Modelled from the spec: recruiter scope of the earnings report; for a
non-admin caller always the caller's own recruiter id. -/
def effRecruiter (rf : Option Nat) (caller : Caller) : Option Nat :=
  if caller.role ≠ "admin" then some caller.recruiter_id else rf

/-- Modelled from the spec: a payment is in scope when no recruiter
restriction applies or its owning application's recruiter matches. -/
def paymentInScope (db : Db) (rid? : Option Nat) (p : Payment) : Bool :=
  match rid? with
  | none => true
  | some rid =>
    match findApp db p.application_id with
    | none => false
    | some a => a.recruiter_id == rid

/-- One line of the earnings report (spec section 4.3 step 2). -/
structure ReportLine where
  paid_date : Date
  amount : ℚ
  candidate_name : String
  client_name : String
  vacancy_title : String
  recruiter_name : String
  application_id : Nat
  payment_id : Nat
  deriving DecidableEq, Repr

/-- Report line of a payment, joined to its application and names. -/
def mkLine (db : Db) (p : Payment) : ReportLine :=
  let a? := findApp db p.application_id
  { paid_date := p.paid_date
    amount := p.amount
    candidate_name := (a?.map (fun a => candidateName db a.candidate_id)).getD ""
    client_name :=
      (a?.map (fun a => clientName db ((appClientId db a).getD 0))).getD ""
    vacancy_title := (a?.map (fun a => vacancyTitle db a.vacancy_id)).getD ""
    recruiter_name := (a?.map (fun a => recruiterName db a.recruiter_id)).getD ""
    application_id := p.application_id
    payment_id := p.id }

/-- Report ordering: `paid_date` ascending, payment id breaking ties. -/
def payLE (p q : Payment) : Prop :=
  p.paid_date.toKey < q.paid_date.toKey ∨
    (p.paid_date.toKey = q.paid_date.toKey ∧ p.id ≤ q.id)

instance : DecidableRel payLE := fun p q => by
  unfold payLE; infer_instance

/-- Modelled from the spec: the payment selection of `get_earnings` (spec
section 4.3 step 1): payments whose `paid_date` lies in the inclusive month
window, under the optional recruiter scope. -/
def selPayments (db : Db) (y m : Nat) (rid? : Option Nat) : List Payment :=
  db.payments.filter (fun p =>
    inWindow y m p.paid_date && paymentInScope db rid? p)

/-- Modelled from the spec: the backend `get_earnings` (spec sections 4.3
and 6; its server code is not in the repository): month validation, the
floating-point total of the selected amounts, and the joined lines ordered
by `paid_date` then payment id. -/
def getEarnings (db : Db) (year month : Nat) (rf : Option Nat) (caller : Caller) :
    Except String (ℚ × List ReportLine) :=
  if month < 1 ∨ 12 < month then .error "invalid month"
  else
    let sel := selPayments db year month (effRecruiter rf caller)
    .ok (sel.foldl (fun s p => s + p.amount) 0,
      (List.insertionSort payLE sel).map (mkLine db))

/-- Store for the spec's worked earnings example: three payments on one
application, dated 2024-03-05, 2024-03-31 and 2024-04-01 with amounts 100,
50 and 999. -/
def exampleDb : Db :=
  { clients := [⟨1, "Acme"⟩]
    recruiters := [⟨1, "Kim"⟩]
    candidates := [⟨1, "Ivan"⟩]
    vacancies := [⟨1, 1, "Dev"⟩]
    applications := [⟨1, 1, 1, 1, "hired"⟩]
    payments := [⟨1, 1, ⟨2024, 3, 5⟩, 100⟩, ⟨2, 1, ⟨2024, 3, 31⟩, 50⟩,
      ⟨3, 1, ⟨2024, 4, 1⟩, 999⟩] }

/-- An admin caller. -/
def adminCaller : Caller := ⟨"admin", 0⟩

/-- A payment entry of the ledger as the front end sees it. -/
structure LedgerEntry where
  paid_date : String
  amount : ℚ
  note : Option String
  deriving DecidableEq, Repr

/-- The add-payment form state (`payForm`). -/
structure PayForm where
  paid_date : String
  amount : ℚ
  note : String
  deriving DecidableEq, Repr

/-- `addPaymentToCurrent` (`part_001` lines 700-729) as a transformer of
the application's payment list: an empty `paid_date` or a non-positive
amount stops before any API call, reporting the error and leaving the
ledger unchanged (the `!payForm.amount` falsiness test and the `<= 0` test
both map to the non-positivity disjunct); otherwise the backend appends the
new payment (persistence modelled from the spec's `add_payment`). -/
def addPaymentToCurrent (form : PayForm) (payments : List LedgerEntry) :
    List LedgerEntry × Option String :=
  if form.paid_date = "" then (payments, some "Укажи дату платежа")
  else if form.amount = 0 ∨ form.amount ≤ 0 then
    (payments, some "Сумма платежа должна быть > 0")
  else
    (payments ++
      [{ paid_date := form.paid_date
         amount := form.amount
         note := if form.note = "" then none else some form.note }], none)

/-- The add-application form state (`addForm`), with empty-string select
values modelled as `none`. -/
structure AddForm where
  full_name : String
  vacancy_id : Option Nat
  recruiter_id : Option Nat
  date_contacted : String
  status : String
  rejection_date : String
  start_date : String
  paid : Bool
  paid_date : String
  payment_amount : ℚ
  is_replacement : Bool
  replacement_of_id : Option Nat
  replacement_note : String
  deriving DecidableEq, Repr

/-- The application payload the create call sends on success
(`part_001` lines 599-613), status-date fields nulled when empty. -/
structure AppPayload where
  vacancy_id : Nat
  recruiter_id : Nat
  date_contacted : String
  status : String
  rejection_date : Option String
  start_date : Option String
  paid : Bool
  paid_date : Option String
  payment_amount : ℚ
  is_replacement : Bool
  replacement_of_id : Option Nat
  replacement_note : Option String
  deriving DecidableEq, Repr

/-- Whitespace test of the trim. -/
def isWs (c : Char) : Bool := c == ' ' || c == '\n' || c == '\t' || c == '\r'

/-- JavaScript `String.prototype.trim`: strip whitespace from both ends. -/
def trimChars (s : String) : String :=
  String.mk (((s.data.dropWhile isWs).reverse.dropWhile isWs).reverse)

/-- Payload built from a form that passed validation. -/
def appPayloadOf (form : AddForm) : AppPayload :=
  { vacancy_id := form.vacancy_id.getD 0
    recruiter_id := form.recruiter_id.getD 0
    date_contacted := form.date_contacted
    status := form.status
    rejection_date :=
      if form.rejection_date = "" then none else some form.rejection_date
    start_date := if form.start_date = "" then none else some form.start_date
    paid := form.paid
    paid_date := if form.paid_date = "" then none else some form.paid_date
    payment_amount := form.payment_amount
    is_replacement := form.is_replacement
    replacement_of_id := form.replacement_of_id
    replacement_note :=
      if form.replacement_note = "" then none else some form.replacement_note }

/-- Validation chain of `submitAddApplication` (`part_001` lines 574-613),
in source order; on success the payload of the create call. -/
def submitAddApplication (form : AddForm) : Except String AppPayload :=
  if trimChars form.full_name = "" then .error "Введите имя кандидата"
  else if form.vacancy_id = none then .error "Выберите вакансию"
  else if form.recruiter_id = none then .error "Выберите рекрутера"
  else if form.status = "rejected" ∧ form.rejection_date = "" then
    .error "Для rejected нужна дата отказа"
  else if form.status = "hired" ∧ form.start_date = "" then
    .error "Для hired нужна дата выхода"
  else if form.paid = true ∧ form.paid_date = "" then
    .error "Если оплачено, укажи дату платежа"
  else .ok (appPayloadOf form)

/-- Truth of JavaScript falsiness on an optional date string: null or the
empty string. -/
def falsyOpt : Option String → Bool
  | none => true
  | some s => s == ""

/-- The row state edited in the edit modal (fields checked or sent by
`saveEditApplication`). -/
structure EditRow where
  id : Nat
  status : String
  date_contacted : String
  rejection_date : Option String
  start_date : Option String
  is_replacement : Bool
  replacement_of_id : Option Nat
  replacement_note : Option String
  deriving DecidableEq, Repr

/-- The update payload `saveEditApplication` sends, fields passed through
unchanged. -/
structure EditPayload where
  status : String
  date_contacted : String
  rejection_date : Option String
  start_date : Option String
  is_replacement : Bool
  replacement_of_id : Option Nat
  replacement_note : Option String
  deriving DecidableEq, Repr

/-- Validation of `saveEditApplication` (`part_001` lines 657-673): only
the two status-date checks guard the update. -/
def saveEditApplication (row : EditRow) : Except String EditPayload :=
  if row.status = "rejected" ∧ falsyOpt row.rejection_date = true then
    .error "Для rejected нужна дата отказа"
  else if row.status = "hired" ∧ falsyOpt row.start_date = true then
    .error "Для hired нужна дата выхода"
  else
    .ok { status := row.status
          date_contacted := row.date_contacted
          rejection_date := row.rejection_date
          start_date := row.start_date
          is_replacement := row.is_replacement
          replacement_of_id := row.replacement_of_id
          replacement_note := row.replacement_note }

/-- Minimal store state for the create-candidate-then-create-application
sequence: candidate ids, applications as (candidate, vacancy) pairs, and
existing vacancy ids. -/
structure CrmState where
  candidates : List Nat
  applications : List (Nat × Nat)
  vacancies : List Nat
  deriving DecidableEq, Repr

/-- Modelled from the spec: the backend `POST /candidates` (not in the
repository) commits a single candidate row. -/
def createCandidate (st : CrmState) (cid : Nat) : CrmState :=
  { st with candidates := st.candidates ++ [cid] }

/-- Modelled from the spec and schema: the backend `POST /applications`
(not in the repository) commits one application row or fails, for example
on a broken `vacancy_id` reference (schema: REFERENCES vacancies). -/
def createApplication (st : CrmState) (cid vid : Nat) : Except String CrmState :=
  if vid ∈ st.vacancies then
    .ok { st with applications := st.applications ++ [(cid, vid)] }
  else .error "vacancy not found"

/-- The two awaited calls of `submitAddApplication` (`part_001` lines
590-613): create the candidate in its own request, then create the
application in a second request; the catch block (lines 637-639) only
records the error message — no rollback, no transaction around the pair. -/
def submitFlow (st : CrmState) (cid vid : Nat) : CrmState × Option String :=
  let st1 := createCandidate st cid
  match createApplication st1 cid vid with
  | .ok st2 => (st2, none)
  | .error e => (st1, some e)

/-- Fractional decimal digits of a value in [0,1), up to `fuel` digits,
stopping at zero: models the default JavaScript number rendering for
values with a short exact decimal expansion. -/
def fracDigits : Nat → ℚ → List Char
  | 0, _ => []
  | fuel + 1, r =>
    if r = 0 then []
    else
      let d : Nat := ⌊r * 10⌋₊
      Char.ofNat (48 + d) :: fracDigits fuel (r * 10 - d)

/-- Default JavaScript number-to-string conversion (for values with a
short exact decimal expansion): optional sign, integer digits, and the
fractional digits after a dot only when nonzero. -/
def jsNumToString (q : ℚ) : String :=
  let ip : Nat := ⌊|q|⌋₊
  let fd := fracDigits 20 (|q| - ip)
  String.mk ((if q < 0 then ['-'] else []) ++ natDigits ip ++
    (if fd = [] then [] else '.' :: fd))

/-- The amount cell of the report items table (`part_001` line 883):
`children: it.amount` renders the raw number, not `formatMoneyUA`. -/
def reportAmountCell (a : ℚ) : String := jsNumToString a

/-- Check of the money display format the spec prescribes: a comma with
exactly two decimal digits after it and no other comma and no dot. -/
def uaMoney (s : String) : Bool :=
  match s.data.reverse with
  | a :: b :: c :: rest =>
    a.isDigit && b.isDigit && (c == ',') &&
      (rest.all (fun x => x != ',')) && (s.data.all (fun x => x != '.'))
  | _ => false

/-- The replacement selector options (`part_001` lines 788-790):
`pipeline.slice(0, 500)`. -/
def replacementOptions (pipeline : List AppRow) : List AppRow :=
  pipeline.take 500

/-- Evaluation lemma for `toFixed2Chars` on a nonnegative value whose
rounded hundredths are `n`. -/
theorem toFixed2Chars_nonneg (q : ℚ) (n : Nat) (h0 : 0 ≤ q)
    (h1 : (n : ℚ) ≤ q * 100 + 1 / 2) (h2 : q * 100 + 1 / 2 < n + 1) :
    toFixed2Chars q = natDigits (n / 100) ++ '.' :: pad2 (n % 100) := by
  unfold toFixed2Chars
  rw [abs_of_nonneg h0]
  rw [show ⌊q * 100 + 1 / 2⌋₊ = n from
    (Nat.floor_eq_iff (by linarith)).mpr ⟨h1, by linarith⟩]
  rw [if_neg (not_lt.mpr h0)]
  simp

/-- Evaluation lemma for `toFixed2Chars` on a negative value whose rounded
magnitude hundredths are `n`. -/
theorem toFixed2Chars_neg (q : ℚ) (n : Nat) (h0 : q < 0)
    (h1 : (n : ℚ) ≤ -q * 100 + 1 / 2) (h2 : -q * 100 + 1 / 2 < n + 1) :
    toFixed2Chars q = '-' :: (natDigits (n / 100) ++ '.' :: pad2 (n % 100)) := by
  unfold toFixed2Chars
  rw [abs_of_nonpos (le_of_lt h0)]
  rw [show ⌊-q * 100 + 1 / 2⌋₊ = n from
    (Nat.floor_eq_iff (by nlinarith)).mpr ⟨h1, by linarith⟩]
  rw [if_pos h0]
  simp

/-- C1: for every report total t the tax overlay is the pure function
single = t * 5%, military = t * 1%, social contribution the fixed constant
1902.34, total_tax their sum and net = t - total_tax; at t = 1000 the
displayed values are 50.00, 10.00, 1962.34 and -962.34, the net being
legitimately negative. -/
theorem c1_tax_overlay (t : ℚ) :
    (taxOverlay t).singleTax = t * (5 / 100) ∧
    (taxOverlay t).militaryTax = t * (1 / 100) ∧
    (taxOverlay t).esv = 190234 / 100 ∧
    (taxOverlay t).totalTax
      = (taxOverlay t).singleTax + (taxOverlay t).militaryTax + 190234 / 100 ∧
    (taxOverlay t).net = t - (taxOverlay t).totalTax ∧
    (taxOverlay 1000).singleTax = 50 ∧
    (taxOverlay 1000).militaryTax = 10 ∧
    (taxOverlay 1000).totalTax = 196234 / 100 ∧
    (taxOverlay 1000).net = -(96234 / 100) ∧
    formatMoneyUA (taxOverlay 1000).singleTax = "50,00" ∧
    formatMoneyUA (taxOverlay 1000).militaryTax = "10,00" ∧
    formatMoneyUA (taxOverlay 1000).esv = "1902,34" ∧
    formatMoneyUA (taxOverlay 1000).totalTax = "1962,34" ∧
    formatMoneyUA (taxOverlay 1000).net = "-962,34" ∧
    (taxOverlay 1000).net < 0 := by
  have hs : (taxOverlay 1000).singleTax = 50 := by norm_num [taxOverlay]
  have hm : (taxOverlay 1000).militaryTax = 10 := by norm_num [taxOverlay]
  have he : (taxOverlay 1000).esv = 190234 / 100 := by norm_num [taxOverlay]
  have ht : (taxOverlay 1000).totalTax = 196234 / 100 := by norm_num [taxOverlay]
  have hn : (taxOverlay 1000).net = -(96234 / 100) := by norm_num [taxOverlay]
  refine ⟨by norm_num [taxOverlay], by norm_num [taxOverlay],
    by norm_num [taxOverlay], by norm_num [taxOverlay],
    by norm_num [taxOverlay], hs, hm, ht, hn, ?_, ?_, ?_, ?_, ?_, by norm_num [taxOverlay]⟩
  · rw [hs, formatMoneyUA, toFixed2Chars_nonneg 50 5000 (by norm_num) (by norm_num)
      (by norm_num)]
    decide
  · rw [hm, formatMoneyUA, toFixed2Chars_nonneg 10 1000 (by norm_num) (by norm_num)
      (by norm_num)]
    decide
  · rw [he, formatMoneyUA, toFixed2Chars_nonneg (190234 / 100) 190234 (by norm_num)
      (by norm_num) (by norm_num)]
    decide
  · rw [ht, formatMoneyUA, toFixed2Chars_nonneg (196234 / 100) 196234 (by norm_num)
      (by norm_num) (by norm_num)]
    decide
  · rw [hn, formatMoneyUA, toFixed2Chars_neg (-(96234 / 100)) 96234 (by norm_num)
      (by norm_num) (by norm_num)]
    decide

theorem scan_nil (b : Bool) (fld : List Char) (cur : List (List Char))
    (acc : List (List (List Char))) :
    scan [] b fld cur acc = acc ++ [cur ++ [fld]] := by
  cases b <;> rfl

theorem scan_true_qq (cs : List Char) (fld : List Char) (cur : List (List Char))
    (acc : List (List (List Char))) :
    scan ('"' :: '"' :: cs) true fld cur acc = scan cs true (fld ++ ['"']) cur acc := by
  simp [scan]

theorem scan_true_q_end (fld : List Char) (cur : List (List Char))
    (acc : List (List (List Char))) :
    scan ['"'] true fld cur acc = scan [] false fld cur acc := by
  simp [scan]

theorem scan_true_q_other (c : Char) (cs : List Char) (fld : List Char)
    (cur : List (List Char)) (acc : List (List (List Char))) (h : c ≠ '"') :
    scan ('"' :: c :: cs) true fld cur acc = scan (c :: cs) false fld cur acc := by
  simp [scan, h]

theorem scan_true_char (c : Char) (cs : List Char) (fld : List Char)
    (cur : List (List Char)) (acc : List (List (List Char))) (h : c ≠ '"') :
    scan (c :: cs) true fld cur acc = scan cs true (fld ++ [c]) cur acc := by
  cases cs with
  | nil => simp [scan, h]
  | cons d cs2 => simp [scan, h]

theorem scan_false_quote (cs : List Char) (fld : List Char) (cur : List (List Char))
    (acc : List (List (List Char))) :
    scan ('"' :: cs) false fld cur acc = scan cs true fld cur acc := by
  simp [scan]

theorem scan_false_semi (cs : List Char) (fld : List Char) (cur : List (List Char))
    (acc : List (List (List Char))) :
    scan (';' :: cs) false fld cur acc = scan cs false [] (cur ++ [fld]) acc := by
  simp [scan]

theorem scan_false_nl (cs : List Char) (fld : List Char) (cur : List (List Char))
    (acc : List (List (List Char))) :
    scan ('\n' :: cs) false fld cur acc = scan cs false [] [] (acc ++ [cur ++ [fld]]) := by
  simp [scan]

theorem scan_false_char (c : Char) (cs : List Char) (fld : List Char)
    (cur : List (List Char)) (acc : List (List (List Char)))
    (h1 : c ≠ '"') (h2 : c ≠ ';') (h3 : c ≠ '\n') :
    scan (c :: cs) false fld cur acc = scan cs false (fld ++ [c]) cur acc := by
  simp [scan, h1, h2, h3]

theorem scan_raw (v : List Char) (rest : List Char) (fld : List Char)
    (cur : List (List Char)) (acc : List (List (List Char)))
    (hv : ∀ c ∈ v, c ≠ '"' ∧ c ≠ ';' ∧ c ≠ '\n') :
    scan (v ++ rest) false fld cur acc = scan rest false (fld ++ v) cur acc := by
  induction v generalizing fld with
  | nil => simp
  | cons c v ih =>
    obtain ⟨h1, h2, h3⟩ := hv c (by simp)
    rw [List.cons_append, scan_false_char c _ _ _ _ h1 h2 h3,
      ih _ (fun x hx => hv x (by simp [hx]))]
    simp

theorem scan_quoted (v : List Char) (rest : List Char) (fld : List Char)
    (cur : List (List Char)) (acc : List (List (List Char)))
    (h : rest.head? ≠ some '"') :
    scan (escQuotes v ++ '"' :: rest) true fld cur acc
      = scan rest false (fld ++ v) cur acc := by
  induction v generalizing fld with
  | nil =>
    simp only [escQuotes, List.nil_append, List.append_nil]
    cases rest with
    | nil => exact scan_true_q_end fld cur acc
    | cons r rs =>
      have hr : r ≠ '"' := by
        intro hcontra
        exact h (by simp [hcontra])
      exact scan_true_q_other r rs fld cur acc hr
  | cons c v ih =>
    by_cases hc : c = '"'
    · subst hc
      rw [show escQuotes ('"' :: v) = '"' :: '"' :: escQuotes v from by
        simp [escQuotes]]
      rw [List.cons_append, List.cons_append, scan_true_qq, ih]
      simp
    · rw [show escQuotes (c :: v) = c :: escQuotes v from by simp [escQuotes, hc]]
      rw [List.cons_append, scan_true_char c _ _ _ _ hc, ih]
      simp

theorem needsQuote_false_mem (v : List Char) (hq : needsQuote v = false) :
    ∀ c ∈ v, c ≠ '"' ∧ c ≠ ';' ∧ c ≠ '\n' := by
  intro c hc
  simp only [needsQuote, List.any_eq_false] at hq
  have h2 := hq c hc
  simp only [needsQuoteChar, Bool.or_eq_true, beq_iff_eq, not_or] at h2
  exact ⟨h2.1.1.1, h2.2, h2.1.2⟩

theorem scan_field (v : List Char) (rest : List Char) (fld : List Char)
    (cur : List (List Char)) (acc : List (List (List Char)))
    (h : rest.head? ≠ some '"') :
    scan (escapeField v ++ rest) false fld cur acc
      = scan rest false (fld ++ v) cur acc := by
  by_cases hq : needsQuote v
  · simp only [escapeField, if_pos hq, List.cons_append, List.append_assoc,
      List.singleton_append, List.nil_append]
    rw [scan_false_quote, scan_quoted v rest fld cur acc h]
  · simp only [escapeField, if_neg hq]
    exact scan_raw v rest fld cur acc
      (needsQuote_false_mem v (Bool.not_eq_true _ ▸ eq_false_of_ne_true hq))

theorem scan_line (r : List (List Char)) (rest : List Char)
    (cur : List (List Char)) (acc : List (List (List Char))) (hr : r ≠ []) :
    scan (csvLine r ++ '\n' :: rest) false [] cur acc
      = scan rest false [] [] (acc ++ [cur ++ r]) := by
  induction r generalizing cur with
  | nil => exact absurd rfl hr
  | cons v vs ih =>
    cases vs with
    | nil =>
      simp only [csvLine, List.map_cons, List.map_nil, joinSep]
      rw [scan_field v _ [] cur acc (by simp), List.nil_append, scan_false_nl]
    | cons w ws =>
      simp only [csvLine, List.map_cons, joinSep, List.append_assoc,
        List.cons_append]
      rw [scan_field v _ [] cur acc (by simp), List.nil_append, scan_false_semi]
      have := ih (cur ++ [v]) (by simp)
      simp only [csvLine, List.map_cons, joinSep] at this
      rw [this]
      simp

theorem scan_last (r : List (List Char)) (cur : List (List Char))
    (acc : List (List (List Char))) (hr : r ≠ []) :
    scan (csvLine r) false [] cur acc = acc ++ [cur ++ r] := by
  induction r generalizing cur with
  | nil => exact absurd rfl hr
  | cons v vs ih =>
    cases vs with
    | nil =>
      simp only [csvLine, List.map_cons, List.map_nil, joinSep]
      have : escapeField v = escapeField v ++ [] := by simp
      rw [this, scan_field v [] [] cur acc (by simp), List.nil_append, scan_nil]
    | cons w ws =>
      simp only [csvLine, List.map_cons, joinSep, List.cons_append]
      rw [scan_field v _ [] cur acc (by simp), List.nil_append, scan_false_semi]
      have := ih (cur ++ [v]) (by simp)
      simp only [csvLine, List.map_cons, joinSep] at this
      rw [this]
      simp

theorem scan_file (ls : List (List (List Char))) (acc : List (List (List Char)))
    (h1 : ls ≠ []) (h2 : ∀ r ∈ ls, r ≠ []) :
    scan (joinSep '\n' (ls.map csvLine)) false [] [] acc = acc ++ ls := by
  induction ls generalizing acc with
  | nil => exact absurd rfl h1
  | cons r rs ih =>
    cases rs with
    | nil =>
      simp only [List.map_cons, List.map_nil, joinSep]
      rw [scan_last r [] acc (h2 r (by simp))]
      simp
    | cons s ss =>
      simp only [List.map_cons, joinSep]
      rw [scan_line r _ [] acc (h2 r (by simp))]
      simp only [List.nil_append]
      have := ih (acc ++ [r]) (by simp) (fun x hx => h2 x (by simp [hx]))
      simp only [List.map_cons, joinSep] at this
      rw [this]
      simp

theorem mk_data (s : String) : String.mk s.data = s := rfl

theorem mapEscape_eq (cols : List String)
    (hcols : ∀ c ∈ cols, needsQuote c.data = false) :
    (cols.map String.data).map escapeField = cols.map String.data := by
  rw [List.map_map]
  apply List.map_congr_left
  intro c hcmem
  simp [Function.comp, escapeField, hcols c hcmem]

/-- C4 (amended): the export is semicolon-delimited; a value is wrapped in
double quotes exactly when it contains a semicolon, a comma, a quote or a
newline (the code also quotes on commas, beyond what the claim stated);
quotes inside a value are doubled; and parsing the export back recovers the
header and every original row value exactly, for any rows whose records are
nonempty and any header of plain column names. -/
theorem c4_csv_roundtrip (cols : List String) (rows : List (List String))
    (v : String) (hc : cols ≠ [])
    (hcols : ∀ c ∈ cols, needsQuote c.data = false)
    (hrows : ∀ r ∈ rows, r ≠ []) :
    parseCSV (csvString cols rows) = cols :: rows ∧
    ((escapeField v.data).head? = some '"' ↔ needsQuote v.data = true) := by
  constructor
  · unfold parseCSV csvString
    have hdata : ∀ l : List Char, (String.mk l).data = l := fun _ => rfl
    rw [hdata]
    unfold csvChars
    have hhead : joinSep ';' (cols.map String.data)
        = csvLine (cols.map String.data) := by
      unfold csvLine
      rw [mapEscape_eq cols hcols]
    rw [hhead, ← List.map_cons]
    rw [scan_file _ [] (by simp) ?_]
    · rw [List.nil_append, List.map_cons, List.map_map, List.map_map]
      have hmkdata : String.mk ∘ String.data = id := funext mk_data
      congr 1
      · rw [hmkdata, List.map_id]
      · have hcomp : ((fun r : List (List Char) => List.map String.mk r) ∘
            fun r : List String => List.map String.data r) = id := by
          funext r
          simp only [Function.comp_apply, List.map_map, hmkdata, List.map_id, id]
        rw [hcomp, List.map_id]
    · intro r hrmem
      rcases List.mem_cons.mp hrmem with h | h
      · subst h
        simpa using hc
      · obtain ⟨r0, hr0, rfl⟩ := List.mem_map.mp h
        simpa using hrows r0 hr0
  · by_cases hq : needsQuote v.data
    · simp [escapeField, hq]
    · simp only [escapeField, if_neg hq]
      constructor
      · intro hh
        exfalso
        cases hv : v.data with
        | nil => rw [hv] at hh; simp at hh
        | cons a t =>
          rw [hv] at hh
          simp only [List.head?_cons, Option.some.injEq] at hh
          apply hq
          rw [hv]
          simp [needsQuote, needsQuoteChar, hh]
      · intro hh
        exact absurd hh hq

/-- C4 counterexample: the escape also quotes on a comma, which is neither
the delimiter (semicolon), a quote nor a newline; the value a,b is emitted
wrapped in quotes although the claim as stated predicts it stays raw. -/
theorem c4_counterexample :
    (escapeField ("a,b".data)).head? = some '"' ∧
    ("a,b".data.any (fun c => c == ';' || c == '"' || c == '\n')) = false := by
  decide

/-- C4 witness: the round trip and the wrapping rule instantiated on a
concrete export whose values contain semicolons, quotes, newlines and an
empty string. -/
theorem c4_witness :
    parseCSV (csvString ["paid_date", "amount"]
        [["2024;03", "he said \"hi\""], ["l1\nl2", ""]])
      = ["paid_date", "amount"] ::
        [["2024;03", "he said \"hi\""], ["l1\nl2", ""]] ∧
    ((escapeField ("x;y".data)).head? = some '"'
      ↔ needsQuote ("x;y".data) = true) :=
  c4_csv_roundtrip ["paid_date", "amount"]
    [["2024;03", "he said \"hi\""], ["l1\nl2", ""]] "x;y"
    (by decide) (by decide) (by decide)

theorem addKeys_eq (a : List String) (r : Row) :
    addKeys a r = insAll a (r.map Prod.fst) := by
  unfold addKeys insAll
  rw [List.foldl_map]

theorem collect_eq_insAll (rows : List Row) (a : List String) :
    rows.foldl addKeys a = insAll a (rows.flatMap (fun r => r.map Prod.fst)) := by
  induction rows generalizing a with
  | nil => rfl
  | cons r rs ih =>
    rw [List.foldl_cons, ih, addKeys_eq, List.flatMap_cons]
    unfold insAll
    rw [List.foldl_append]

theorem mem_insKey_of_mem (a : List String) (k x : String) (h : x ∈ a) :
    x ∈ insKey a k := by
  unfold insKey
  split
  · exact h
  · exact List.mem_append_left _ h

theorem insAll_congr_filter (l : List String) (a : List String) (p : String → Bool)
    (h : ∀ x ∈ l, p x = false → x ∈ a) :
    insAll a (l.filter p) = insAll a l := by
  induction l generalizing a with
  | nil => rfl
  | cons c l ih =>
    by_cases hp : p c = true
    · rw [List.filter_cons_of_pos hp]
      unfold insAll
      rw [List.foldl_cons, List.foldl_cons]
      exact ih (insKey a c) (fun x hx hpx =>
        mem_insKey_of_mem a c x (h x (List.mem_cons_of_mem c hx) hpx))
    · rw [List.filter_cons_of_neg (by simpa using hp)]
      have hca : c ∈ a := h c (by simp) (by simpa using hp)
      have hins : insKey a c = a := if_pos hca
      calc insAll a (List.filter p l) = insAll a l :=
            ih a (fun x hx hpx => h x (by simp [hx]) hpx)
        _ = insAll (insKey a c) l := by rw [hins]
        _ = insAll a (c :: l) := rfl

theorem insAll_eq_dedupFirst (l : List String) : ∀ a : List String,
    (∀ k ∈ l, k ∉ a) → insAll a l = a ++ dedupFirst l := by
  induction l using dedupFirst.induct with
  | case1 => intro a _; simp [insAll, dedupFirst]
  | case2 k ks ih =>
    intro a ha
    have hka : k ∉ a := ha k (by simp)
    show insAll (insKey a k) ks = _
    have h1 : insKey a k = a ++ [k] := if_neg hka
    rw [h1]
    rw [← insAll_congr_filter ks (a ++ [k]) (fun x => x ≠ k) ?cond]
    case cond =>
      intro x _ hpx
      simp only [decide_eq_false_iff_not, not_not] at hpx
      subst hpx
      simp
    rw [ih (a ++ [k]) ?fresh]
    case fresh =>
      intro x hx
      have hxks : x ∈ ks := List.mem_of_mem_filter hx
      have hxk : x ≠ k := by
        have := List.of_mem_filter hx
        simpa using this
      have hxa : x ∉ a := ha x (by simp [hxks])
      simp [hxa, hxk]
    rw [show dedupFirst (k :: ks) = k :: dedupFirst (ks.filter (fun x => x ≠ k))
      from by rw [dedupFirst]]
    simp

theorem collectCols_eq (rows : List Row) :
    collectCols rows = dedupFirst (rows.flatMap (fun r => r.map Prod.fst)) := by
  unfold collectCols
  rw [collect_eq_insAll rows []]
  rw [insAll_eq_dedupFirst _ [] (by simp)]
  simp

theorem keys_nullToEmpty (r : Row) :
    (nullToEmpty r).map Prod.fst = r.map Prod.fst := by
  unfold nullToEmpty
  rw [List.map_map]
  rfl

theorem collectCols_nullToEmpty (rows : List Row) :
    collectCols (rows.map nullToEmpty) = collectCols rows := by
  unfold collectCols
  rw [List.foldl_map]
  have : (fun (a : List String) (r : Row) => addKeys a (nullToEmpty r))
      = addKeys := by
    funext a r
    rw [addKeys_eq, addKeys_eq, keys_nullToEmpty]
  rw [this]

theorem cellValue_nullToEmpty (r : Row) (c : String) :
    cellValue (nullToEmpty r) c = cellValue r c := by
  induction r with
  | nil => rfl
  | cons kv r ih =>
    obtain ⟨k, v⟩ := kv
    by_cases hk : (c == k) = true
    · show cellValue ((k, some (v.getD "")) :: nullToEmpty r) c = _
      unfold cellValue
      rw [show List.lookup c ((k, some (v.getD "")) :: nullToEmpty r)
          = some (some (v.getD "")) from by simp [List.lookup, hk]]
      rw [show List.lookup c ((k, v) :: r) = some v from by simp [List.lookup, hk]]
      cases v with
      | none => rfl
      | some s => rfl
    · show cellValue ((k, some (v.getD "")) :: nullToEmpty r) c = _
      unfold cellValue
      rw [show List.lookup c ((k, some (v.getD "")) :: nullToEmpty r)
          = List.lookup c (nullToEmpty r) from by simp [List.lookup, hk]]
      rw [show List.lookup c ((k, v) :: r) = List.lookup c r from by
        simp [List.lookup, hk]]
      exact ih

theorem rowsCSV_nullToEmpty (rows : List Row) :
    rowsCSV (rows.map nullToEmpty) = rowsCSV rows := by
  unfold rowsCSV
  rw [collectCols_nullToEmpty]
  congr 2
  rw [List.map_map]
  apply List.map_congr_left
  intro r _
  simp only [Function.comp_apply]
  apply List.map_congr_left
  intro c _
  exact cellValue_nullToEmpty r c

/-- C10: the CSV header is the union of the keys of all input rows in
first-encounter order; a null (or undefined) cell and a missing column both
serialize as the empty string, so the export is total on heterogeneous
rows, and replacing every null value by the empty string leaves the
exported text unchanged (null and empty string are indistinguishable after
export). -/
theorem c10_csv_columns (rows : List Row) (row : Row) (c : String)
    (h : row.lookup c = none ∨ row.lookup c = some none) :
    collectCols rows = dedupFirst (rows.flatMap (fun r => r.map Prod.fst)) ∧
    cellValue row c = [] ∧
    rowsCSV (rows.map nullToEmpty) = rowsCSV rows := by
  refine ⟨collectCols_eq rows, ?_, rowsCSV_nullToEmpty rows⟩
  rcases h with h | h <;> simp [cellValue, h]

/-- C10 witness: the header, null-cell and null-versus-empty facts at a
concrete pair of heterogeneous rows. -/
theorem c10_witness :
    collectCols [[("a", some "1"), ("b", none)], [("c", some "2"), ("a", none)]]
      = dedupFirst
          ([[("a", some "1"), ("b", none)],
            [("c", some "2"), ("a", none)]].flatMap (fun r => r.map Prod.fst)) ∧
    cellValue [("k", none)] "k" = [] ∧
    rowsCSV ([[("a", some "1"), ("b", none)],
        [("c", some "2"), ("a", none)]].map nullToEmpty)
      = rowsCSV [[("a", some "1"), ("b", none)], [("c", some "2"), ("a", none)]] :=
  c10_csv_columns
    [[("a", some "1"), ("b", none)], [("c", some "2"), ("a", none)]]
    [("k", none)] "k" (Or.inr (by decide))

/-- C2: for a non-admin caller, every row of `list_pipeline` carries the
caller's own recruiter id; the supplied `recruiter_id` filter value has no
effect on the result; and with no other filters the result is exactly the
applications whose `recruiter_id` equals the caller's bound id — the
scoping sits in the Pipeline Query, not the presentation layer. -/
theorem c2_pipeline_scoping (db : Db) (f : Filters) (caller : Caller)
    (rid : Option Nat) (h : caller.role ≠ "admin") :
    (∀ a ∈ listPipeline db f caller, a.recruiter_id = caller.recruiter_id) ∧
    listPipeline db { f with recruiter_id := rid } caller
      = listPipeline db f caller ∧
    listPipeline db ⟨none, rid, none, none⟩ caller
      = db.applications.filter
          (fun a => a.recruiter_id == caller.recruiter_id) := by
  refine ⟨?_, ?_, ?_⟩
  · intro a ha
    have hmem := List.of_mem_filter ha
    unfold effFilters at hmem
    rw [if_pos h] at hmem
    unfold rowMatches at hmem
    simp only [Bool.and_eq_true] at hmem
    have := hmem.1.1.2
    simpa using this
  · unfold listPipeline effFilters
    rw [if_pos h, if_pos h]
  · unfold listPipeline effFilters
    rw [if_pos h]
    apply List.filter_congr
    intro a _
    unfold rowMatches
    simp

/-- C2 witness: the scoping facts at a concrete store, a non-admin caller
bound to recruiter 1, and a hostile `recruiter_id` filter value 2. -/
theorem c2_witness :
    (∀ a ∈ listPipeline exampleDb ⟨none, some 2, none, none⟩ ⟨"user", 1⟩,
      a.recruiter_id = (⟨"user", 1⟩ : Caller).recruiter_id) ∧
    listPipeline exampleDb
        { (⟨none, some 2, none, none⟩ : Filters) with recruiter_id := some 2 }
        ⟨"user", 1⟩
      = listPipeline exampleDb ⟨none, some 2, none, none⟩ ⟨"user", 1⟩ ∧
    listPipeline exampleDb ⟨none, some 2, none, none⟩ ⟨"user", 1⟩
      = exampleDb.applications.filter
          (fun a => a.recruiter_id == (⟨"user", 1⟩ : Caller).recruiter_id) :=
  c2_pipeline_scoping exampleDb ⟨none, some 2, none, none⟩ ⟨"user", 1⟩
    (some 2) (by decide)

/-- C9: the replacement selector offers exactly the first 500 rows of the
current pipeline list; it never offers more than 500 options, and every
offered option occurs at a position below 500 in the list, so an
application appearing only beyond position 500 cannot be selected. -/
theorem c9_replacement_options (l : List AppRow) :
    replacementOptions l = l.take 500 ∧
    (replacementOptions l).length ≤ 500 ∧
    (∀ x ∈ replacementOptions l, ∃ i, i < 500 ∧ l[i]? = some x) := by
  refine ⟨rfl, ?_, ?_⟩
  · unfold replacementOptions
    simp
  · intro x hx
    unfold replacementOptions at hx
    obtain ⟨i, hm, heq⟩ := List.mem_take_iff_getElem.mp hx
    have h500 : i < 500 := lt_of_lt_of_le hm inf_le_left
    have hlen : i < l.length := lt_of_lt_of_le hm inf_le_right
    exact ⟨i, h500, by rw [List.getElem?_eq_getElem hlen, heq]⟩

/-- C5: an add-payment request with an empty paid date or a non-positive
amount stops with a validation error and changes nothing; with a date and
a positive amount the new payment is appended to the ledger. -/
theorem c5_add_payment (form : PayForm) (ps : List LedgerEntry) :
    ((form.paid_date = "" ∨ form.amount ≤ 0) →
      (addPaymentToCurrent form ps).1 = ps ∧
      (addPaymentToCurrent form ps).2.isSome = true) ∧
    (form.paid_date ≠ "" → 0 < form.amount →
      addPaymentToCurrent form ps
        = (ps ++ [{ paid_date := form.paid_date
                    amount := form.amount
                    note := if form.note = "" then none
                      else some form.note }], none)) := by
  constructor
  · intro h
    unfold addPaymentToCurrent
    rcases h with h | h
    · rw [if_pos h]
      exact ⟨rfl, rfl⟩
    · by_cases hd : form.paid_date = ""
      · rw [if_pos hd]
        exact ⟨rfl, rfl⟩
      · rw [if_neg hd, if_pos (Or.inr h)]
        exact ⟨rfl, rfl⟩
  · intro hd ha
    unfold addPaymentToCurrent
    rw [if_neg hd, if_neg ?_]
    rintro (h | h) <;> linarith [ha]

/-- C5 witness: amount 0 is rejected leaving the ledger empty; a dated
payment of 100 is appended. -/
theorem c5_witness :
    ((addPaymentToCurrent ⟨"2024-03-05", 0, ""⟩ []).1 = [] ∧
      (addPaymentToCurrent ⟨"2024-03-05", 0, ""⟩ []).2.isSome = true) ∧
    addPaymentToCurrent ⟨"2024-03-05", 100, ""⟩ []
      = ([{ paid_date := "2024-03-05", amount := 100, note := none }], none) :=
  ⟨(c5_add_payment ⟨"2024-03-05", 0, ""⟩ []).1 (Or.inr (by norm_num)),
   (c5_add_payment ⟨"2024-03-05", 100, ""⟩ []).2 (by decide) (by norm_num)⟩

/-- C6 (amended): creating with status rejected and no rejection date, or
hired and no start date, fails validation (likewise for the edit form);
once the missing date is supplied the same create succeeds provided the
remaining validations (candidate name, vacancy, recruiter, paid date)
pass; and every payload that passes validation satisfies the forward
implications — rejected implies a rejection date, hired implies a start
date.  The converse directions do not hold of stored applications. -/
theorem c6_status_dates (form : AddForm) (row : EditRow) :
    (form.status = "rejected" ∧ form.rejection_date = "" →
      (submitAddApplication form).toOption = none) ∧
    (form.status = "hired" ∧ form.start_date = "" →
      (submitAddApplication form).toOption = none) ∧
    (∀ p, submitAddApplication form = .ok p →
      (p.status = "rejected" → p.rejection_date ≠ none) ∧
      (p.status = "hired" → p.start_date ≠ none)) ∧
    (trimChars form.full_name ≠ "" → form.vacancy_id ≠ none →
      form.recruiter_id ≠ none →
      (form.status = "rejected" → form.rejection_date ≠ "") →
      (form.status = "hired" → form.start_date ≠ "") →
      (form.paid = true → form.paid_date ≠ "") →
      submitAddApplication form = .ok (appPayloadOf form)) ∧
    (row.status = "rejected" ∧ falsyOpt row.rejection_date = true →
      (saveEditApplication row).toOption = none) ∧
    (row.status = "hired" ∧ falsyOpt row.start_date = true →
      (saveEditApplication row).toOption = none) := by
  refine ⟨?_, ?_, ?_, ?_, ?_, ?_⟩
  · intro hs
    unfold submitAddApplication
    split_ifs <;> rfl
  · intro hs
    unfold submitAddApplication
    split_ifs <;> rfl
  · intro p hp
    unfold submitAddApplication at hp
    split_ifs at hp with h1 h2 h3 h4 h5 h6
    injection hp with hpe
    subst hpe
    constructor
    · intro hst
      have hst2 : form.status = "rejected" := hst
      have hrd : form.rejection_date ≠ "" := fun hrd => h4 ⟨hst2, hrd⟩
      simp [appPayloadOf, hrd]
    · intro hst
      have hst2 : form.status = "hired" := hst
      have hsd : form.start_date ≠ "" := fun hsd => h5 ⟨hst2, hsd⟩
      simp [appPayloadOf, hsd]
  · intro g1 g2 g3 g4 g5 g6
    unfold submitAddApplication
    rw [if_neg g1, if_neg g2, if_neg g3,
      if_neg (fun h => g4 h.1 h.2), if_neg (fun h => g5 h.1 h.2),
      if_neg (fun h => g6 h.1 h.2)]
  · intro hs
    unfold saveEditApplication
    split_ifs <;> rfl
  · intro hs
    unfold saveEditApplication
    split_ifs <;> rfl

/-- C6 counterexample: a form with status new but a rejection date filled
in passes validation, and the stored payload carries a rejection date while
its status is not rejected — so "rejection_date present iff status =
rejected" fails in the only-if direction on stored applications. -/
theorem c6_counterexample :
    (submitAddApplication
        { full_name := "Ivan", vacancy_id := some 1, recruiter_id := some 1
          date_contacted := "2024-01-02", status := "new"
          rejection_date := "2024-01-03", start_date := "", paid := false
          paid_date := "", payment_amount := 0, is_replacement := false
          replacement_of_id := none, replacement_note := "" }).toOption
      = some (appPayloadOf
        { full_name := "Ivan", vacancy_id := some 1, recruiter_id := some 1
          date_contacted := "2024-01-02", status := "new"
          rejection_date := "2024-01-03", start_date := "", paid := false
          paid_date := "", payment_amount := 0, is_replacement := false
          replacement_of_id := none, replacement_note := "" }) ∧
    (appPayloadOf
        { full_name := "Ivan", vacancy_id := some 1, recruiter_id := some 1
          date_contacted := "2024-01-02", status := "new"
          rejection_date := "2024-01-03", start_date := "", paid := false
          paid_date := "", payment_amount := 0, is_replacement := false
          replacement_of_id := none, replacement_note := "" }).rejection_date
      = some "2024-01-03" ∧
    (appPayloadOf
        { full_name := "Ivan", vacancy_id := some 1, recruiter_id := some 1
          date_contacted := "2024-01-02", status := "new"
          rejection_date := "2024-01-03", start_date := "", paid := false
          paid_date := "", payment_amount := 0, is_replacement := false
          replacement_of_id := none, replacement_note := "" }).status
      ≠ "rejected" := by
  refine ⟨?_, by decide, by decide⟩
  decide

/-- C6 witness: a rejected form without a date fails, and the same form
succeeds once the rejection date is supplied. -/
theorem c6_witness :
    (submitAddApplication
        ⟨"Ivan", some 1, some 1, "2024-01-02", "rejected", "", "", false, "",
          0, false, none, ""⟩).toOption = none ∧
    submitAddApplication
        ⟨"Ivan", some 1, some 1, "2024-01-02", "rejected", "2024-01-03", "",
          false, "", 0, false, none, ""⟩
      = .ok (appPayloadOf
          ⟨"Ivan", some 1, some 1, "2024-01-02", "rejected", "2024-01-03",
            "", false, "", 0, false, none, ""⟩) :=
  ⟨(c6_status_dates
      ⟨"Ivan", some 1, some 1, "2024-01-02", "rejected", "", "", false, "",
        0, false, none, ""⟩
      ⟨1, "new", "2024-01-02", none, none, false, none, none⟩).1
      (by exact ⟨rfl, rfl⟩),
   (c6_status_dates
      ⟨"Ivan", some 1, some 1, "2024-01-02", "rejected", "2024-01-03", "",
        false, "", 0, false, none, ""⟩
      ⟨1, "new", "2024-01-02", none, none, false, none, none⟩).2.2.2.1
      (by decide) (by decide) (by decide) (by decide) (by decide) (by decide)⟩

/-- C7 (code bug): the two creates are separate requests with no
surrounding transaction; in the execution where the application create
fails (vacancy 99 absent) after candidate 7 was committed, the flow
reports the error but the final state keeps candidate 7 with no
application referencing it — an orphaned Candidate, contrary to the
claimed atomicity. -/
theorem c7_candidate_orphan :
    submitFlow ⟨[], [], []⟩ 7 99
      = (⟨[7], [], []⟩, some "vacancy not found") ∧
    7 ∈ (submitFlow ⟨[], [], []⟩ 7 99).1.candidates ∧
    (∀ app ∈ (submitFlow ⟨[], [], []⟩ 7 99).1.applications, app.1 ≠ 7) := by
  refine ⟨by decide, by decide, ?_⟩
  intro app happ
  simp [submitFlow, createCandidate, createApplication] at happ

theorem daysInMonth_bounds (y m : Nat) :
    28 ≤ daysInMonth y m ∧ daysInMonth y m ≤ 31 := by
  unfold daysInMonth
  split
  · split <;> omega
  · split <;> omega

theorem inWindow_iff (y m : Nat) (d : Date) (hm1 : 1 ≤ m) (hm2 : m ≤ 12)
    (hd : validDate d) : inWindow y m d = true ↔ d.year = y ∧ d.month = m := by
  obtain ⟨hd1, hd2, hd3, hd4⟩ := hd
  have hb := daysInMonth_bounds y m
  have hbd := daysInMonth_bounds d.year d.month
  unfold inWindow monthFirst monthLast Date.toKey
  simp only [Nat.ble_eq, Bool.and_eq_true]
  constructor
  · intro h
    have h31 : d.day ≤ 31 := le_trans hd4 hbd.2
    omega
  · rintro ⟨hy, hmm⟩
    subst hy
    subst hmm
    omega

/-- C3: for a valid month, `get_earnings` returns (not an error) the sum of
exactly the payments whose `paid_date` falls in the inclusive window from
the first to the last day of the month (optionally restricted to one
recruiter), with one line per selected payment; the window contains a
valid date exactly when its calendar year and month match; a month with no
matching payment yields total 0 and no lines; and on the spec's worked
example (payments 2024-03-05, 2024-03-31, 2024-04-01 of amounts 100, 50,
999) the March report totals 150 with 2 items while May yields 0 and none. -/
theorem c3_earnings (db : Db) (y m : Nat) (rf : Option Nat) (caller : Caller)
    (h1 : 1 ≤ m) (h2 : m ≤ 12) :
    getEarnings db y m rf caller
      = .ok ((selPayments db y m (effRecruiter rf caller)).foldl
          (fun s p => s + p.amount) 0,
        (List.insertionSort payLE
          (selPayments db y m (effRecruiter rf caller))).map (mkLine db)) ∧
    (∀ ln, ln ∈ (List.insertionSort payLE
        (selPayments db y m (effRecruiter rf caller))).map (mkLine db) ↔
      ∃ p, p ∈ db.payments ∧ inWindow y m p.paid_date = true ∧
        paymentInScope db (effRecruiter rf caller) p = true ∧
        ln = mkLine db p) ∧
    (∀ d : Date, validDate d →
      (inWindow y m d = true ↔ d.year = y ∧ d.month = m)) ∧
    (selPayments db y m (effRecruiter rf caller) = [] →
      getEarnings db y m rf caller = .ok (0, [])) ∧
    getEarnings exampleDb 2024 3 none adminCaller
      = .ok (150, [mkLine exampleDb ⟨1, 1, ⟨2024, 3, 5⟩, 100⟩,
        mkLine exampleDb ⟨2, 1, ⟨2024, 3, 31⟩, 50⟩]) ∧
    getEarnings exampleDb 2024 5 none adminCaller = .ok (0, []) := by
  have hok : ∀ (db2 : Db) (y2 m2 : Nat) (rf2 : Option Nat) (c2 : Caller),
      1 ≤ m2 → m2 ≤ 12 →
      getEarnings db2 y2 m2 rf2 c2
        = .ok ((selPayments db2 y2 m2 (effRecruiter rf2 c2)).foldl
            (fun s p => s + p.amount) 0,
          (List.insertionSort payLE
            (selPayments db2 y2 m2 (effRecruiter rf2 c2))).map (mkLine db2)) := by
    intro db2 y2 m2 rf2 c2 g1 g2
    unfold getEarnings
    rw [if_neg (by omega)]
  refine ⟨hok db y m rf caller h1 h2, ?_, ?_, ?_, ?_, ?_⟩
  · intro ln
    rw [List.mem_map]
    constructor
    · rintro ⟨p, hp, rfl⟩
      have hsel : p ∈ selPayments db y m (effRecruiter rf caller) :=
        (List.perm_insertionSort payLE _).mem_iff.mp hp
      have := List.mem_filter.mp hsel
      obtain ⟨hmem, hcond⟩ := this
      rw [Bool.and_eq_true] at hcond
      exact ⟨p, hmem, hcond.1, hcond.2, rfl⟩
    · rintro ⟨p, hmem, hw, hs, rfl⟩
      refine ⟨p, ?_, rfl⟩
      rw [(List.perm_insertionSort payLE _).mem_iff]
      exact List.mem_filter.mpr ⟨hmem, by rw [Bool.and_eq_true]; exact ⟨hw, hs⟩⟩
  · intro d hd
    exact inWindow_iff y m d h1 h2 hd
  · intro hempty
    rw [hok db y m rf caller h1 h2, hempty]
    simp
  · rw [hok exampleDb 2024 3 none adminCaller (by omega) (by omega)]
    have hfil : selPayments exampleDb 2024 3 (effRecruiter none adminCaller)
        = [⟨1, 1, ⟨2024, 3, 5⟩, 100⟩, ⟨2, 1, ⟨2024, 3, 31⟩, 50⟩] := by decide
    rw [hfil]
    have hsort : List.insertionSort payLE
        [(⟨1, 1, ⟨2024, 3, 5⟩, 100⟩ : Payment), ⟨2, 1, ⟨2024, 3, 31⟩, 50⟩]
        = [⟨1, 1, ⟨2024, 3, 5⟩, 100⟩, ⟨2, 1, ⟨2024, 3, 31⟩, 50⟩] := by decide
    rw [hsort]
    simp only [List.foldl_cons, List.foldl_nil, List.map_cons, List.map_nil]
    norm_num
  · rw [hok exampleDb 2024 5 none adminCaller (by omega) (by omega)]
    have hfil : selPayments exampleDb 2024 5 (effRecruiter none adminCaller)
        = [] := by decide
    rw [hfil]
    simp

/-- C3 witness: the general statements instantiated on the worked example
store for March 2024 with an admin caller. -/
theorem c3_witness :
    getEarnings exampleDb 2024 3 none adminCaller
      = .ok ((selPayments exampleDb 2024 3 (effRecruiter none adminCaller)).foldl
          (fun s p => s + p.amount) 0,
        (List.insertionSort payLE
          (selPayments exampleDb 2024 3 (effRecruiter none adminCaller))).map
          (mkLine exampleDb)) ∧
    (∀ ln, ln ∈ (List.insertionSort payLE
        (selPayments exampleDb 2024 3 (effRecruiter none adminCaller))).map
        (mkLine exampleDb) ↔
      ∃ p, p ∈ exampleDb.payments ∧ inWindow 2024 3 p.paid_date = true ∧
        paymentInScope exampleDb (effRecruiter none adminCaller) p = true ∧
        ln = mkLine exampleDb p) ∧
    (∀ d : Date, validDate d →
      (inWindow 2024 3 d = true ↔ d.year = 2024 ∧ d.month = 3)) ∧
    (selPayments exampleDb 2024 3 (effRecruiter none adminCaller) = [] →
      getEarnings exampleDb 2024 3 none adminCaller = .ok (0, [])) ∧
    getEarnings exampleDb 2024 3 none adminCaller
      = .ok (150, [mkLine exampleDb ⟨1, 1, ⟨2024, 3, 5⟩, 100⟩,
        mkLine exampleDb ⟨2, 1, ⟨2024, 3, 31⟩, 50⟩]) ∧
    getEarnings exampleDb 2024 5 none adminCaller = .ok (0, []) :=
  c3_earnings exampleDb 2024 3 none adminCaller (by omega) (by omega)

theorem digitChar_facts (d : Nat) (hd : d < 10) :
    (Char.ofNat (48 + d)).isDigit = true ∧ Char.ofNat (48 + d) ≠ ',' ∧
      Char.ofNat (48 + d) ≠ '.' := by
  interval_cases d <;> refine ⟨by decide, by decide, by decide⟩

theorem natDigitsAux_digits (f : Nat) : ∀ n, n < f →
    ∀ c ∈ natDigitsAux f n, c.isDigit = true := by
  induction f with
  | zero => intro n h; omega
  | succ f ih =>
    intro n hn c hc
    unfold natDigitsAux at hc
    by_cases h10 : n < 10
    · rw [if_pos h10] at hc
      simp only [List.mem_singleton] at hc
      subst hc
      exact (digitChar_facts n h10).1
    · rw [if_neg h10] at hc
      rw [List.mem_append] at hc
      rcases hc with hc | hc
      · exact ih (n / 10) (by omega) c hc
      · simp only [List.mem_singleton] at hc
        subst hc
        exact (digitChar_facts (n % 10) (by omega)).1

theorem natDigits_digits (n : Nat) : ∀ c ∈ natDigits n, c.isDigit = true :=
  natDigitsAux_digits (n + 1) n (by omega)

theorem natDigitsAux_succ (f n : Nat) :
    natDigitsAux (f + 1) n = if n < 10 then [Char.ofNat (48 + n)]
      else natDigitsAux f (n / 10) ++ [Char.ofNat (48 + n % 10)] := rfl

theorem pad2_eq (n : Nat) (h : n < 100) :
    pad2 n = [Char.ofNat (48 + n / 10), Char.ofNat (48 + n % 10)] := by
  by_cases h10 : n < 10
  · unfold pad2 natDigits
    rw [if_pos h10, natDigitsAux_succ, if_pos h10]
    have e1 : n / 10 = 0 := by omega
    have e2 : n % 10 = n := by omega
    rw [e1, e2]
  · unfold pad2 natDigits
    rw [if_neg h10, natDigitsAux_succ, if_neg h10]
    obtain ⟨f, rfl⟩ : ∃ f, n = f + 1 := ⟨n - 1, by omega⟩
    rw [natDigitsAux_succ, if_pos (by omega)]
    rfl

theorem isDigit_ne (c : Char) (h : c.isDigit = true) : c ≠ ',' ∧ c ≠ '.' := by
  constructor <;> intro he <;> subst he <;> exact absurd h (by decide)

theorem map_dotToComma_id (l : List Char) (h : ∀ c ∈ l, c ≠ '.') :
    l.map dotToComma = l := by
  induction l with
  | nil => rfl
  | cons c l ih =>
    rw [List.map_cons, ih (fun x hx => h x (by simp [hx]))]
    unfold dotToComma
    rw [if_neg (h c (by simp))]

theorem uaMoney_shape (sign digitsI : List Char) (a b : Char)
    (hs : ∀ c ∈ sign, c = '-')
    (hi : ∀ c ∈ digitsI, c.isDigit = true)
    (ha : a.isDigit = true) (hb : b.isDigit = true) :
    uaMoney (String.mk ((sign ++ digitsI ++ '.' :: [a, b]).map dotToComma))
      = true := by
  have hsm : sign.map dotToComma = sign :=
    map_dotToComma_id sign (fun c hc => by rw [hs c hc]; decide)
  have him : digitsI.map dotToComma = digitsI :=
    map_dotToComma_id digitsI (fun c hc => (isDigit_ne c (hi c hc)).2)
  have hmap : (sign ++ digitsI ++ '.' :: [a, b]).map dotToComma
      = sign ++ digitsI ++ ',' :: [a, b] := by
    rw [List.map_append, List.map_append, hsm, him, List.map_cons]
    rw [show dotToComma '.' = ',' from rfl, List.map_cons, List.map_cons,
      List.map_nil]
    rw [show dotToComma a = a from by
      unfold dotToComma; rw [if_neg (isDigit_ne a ha).2]]
    rw [show dotToComma b = b from by
      unfold dotToComma; rw [if_neg (isDigit_ne b hb).2]]
  rw [hmap]
  have hrev : (sign ++ digitsI ++ ',' :: [a, b]).reverse
      = b :: a :: ',' :: (digitsI.reverse ++ sign.reverse) := by
    rw [List.reverse_append, List.reverse_append]
    simp
  unfold uaMoney
  rw [show (String.mk (sign ++ digitsI ++ ',' :: [a, b])).data
    = sign ++ digitsI ++ ',' :: [a, b] from rfl]
  rw [hrev]
  simp only [Bool.and_eq_true, beq_self_eq_true, List.all_append,
    List.all_cons, List.all_nil, List.all_reverse, List.all_eq_true]
  repeat' apply And.intro
  all_goals first
    | decide
    | exact ha
    | exact hb
    | (intro c hc
       first
         | simpa using (isDigit_ne c (hi c hc)).1
         | simpa using (isDigit_ne c (hi c hc)).2
         | (rw [hs c hc]; decide))
    | simpa using (isDigit_ne a ha).2
    | simpa using (isDigit_ne b hb).2

theorem fracDigits_half : fracDigits 20 (1 / 2 : ℚ) = ['5'] := by
  show fracDigits (19 + 1) (1 / 2 : ℚ) = ['5']
  unfold fracDigits
  rw [if_neg (by norm_num)]
  have hd : ⌊(1 / 2 : ℚ) * 10⌋₊ = 5 := by
    rw [Nat.floor_eq_iff (by norm_num)]
    norm_num
  simp only [hd]
  have he : (1 / 2 : ℚ) * 10 - ((5 : ℕ) : ℚ) = 0 := by push_cast; norm_num
  rw [he]
  rw [show fracDigits 19 (0 : ℚ) = [] from by
    show fracDigits (18 + 1) (0 : ℚ) = []
    unfold fracDigits
    rw [if_pos rfl]]

theorem reportCell_eval : reportAmountCell (201 / 2) = "100.5" := by
  have habs : |(201 / 2 : ℚ)| = 201 / 2 := abs_of_nonneg (by norm_num)
  have hip : ⌊(201 / 2 : ℚ)⌋₊ = 100 := by
    rw [Nat.floor_eq_iff (by norm_num)]
    norm_num
  have hfr : (201 / 2 : ℚ) - ((100 : ℕ) : ℚ) = 1 / 2 := by push_cast; norm_num
  show String.mk
      ((if (201 / 2 : ℚ) < 0 then ['-'] else []) ++
        natDigits ⌊|(201 / 2 : ℚ)|⌋₊ ++
        (if fracDigits 20 (|(201 / 2 : ℚ)| - (⌊|(201 / 2 : ℚ)|⌋₊ : ℚ)) = []
          then []
          else '.' :: fracDigits 20
            (|(201 / 2 : ℚ)| - (⌊|(201 / 2 : ℚ)|⌋₊ : ℚ))))
    = "100.5"
  rw [habs, hip, hfr, fracDigits_half,
    if_neg (by norm_num : ¬ (201 / 2 : ℚ) < 0),
    if_neg (by decide : ¬ (['5'] : List Char) = [])]
  decide

/-- C8 (amended): every value rendered through `formatMoneyUA` — the tax
overlay cells — shows exactly two decimal digits after a comma; but the
report items table renders the raw amount, so 100.5 appears there as
"100.5" (dot, one decimal) where the comma format would be "100,50"; the
claim that every monetary value is so formatted does not hold of that
cell. -/
theorem c8_money_rendering (q : ℚ) :
    uaMoney (formatMoneyUA q) = true ∧
    reportAmountCell (201 / 2) = "100.5" ∧
    uaMoney (reportAmountCell (201 / 2)) = false ∧
    formatMoneyUA (201 / 2) = "100,50" := by
  refine ⟨?_, reportCell_eval, ?_, ?_⟩
  · show uaMoney (String.mk
      (((if q < 0 then ['-'] else []) ++
        natDigits (⌊|q| * 100 + 1 / 2⌋₊ / 100) ++
        '.' :: pad2 (⌊|q| * 100 + 1 / 2⌋₊ % 100)).map dotToComma)) = true
    rw [pad2_eq _ (by omega)]
    apply uaMoney_shape
    · intro c hc
      split at hc
      · simpa using hc
      · simp at hc
    · exact natDigits_digits _
    · exact (digitChar_facts _ (by omega)).1
    · exact (digitChar_facts _ (by omega)).1
  · rw [reportCell_eval]
    decide
  · rw [formatMoneyUA, toFixed2Chars_nonneg (201 / 2) 10050 (by norm_num)
      (by norm_num) (by norm_num)]
    decide

/-- C8 counterexample: the report items table (`part_001` line 883) renders
the amount 100.5 raw as "100.5" — a dot and a single decimal digit — which
is not the two-decimal comma format, refuting "every monetary value the
application renders is displayed with exactly 2 decimal digits using a
comma". -/
theorem c8_counterexample :
    reportAmountCell (201 / 2) = "100.5" ∧ uaMoney "100.5" = false :=
  ⟨reportCell_eval, by decide⟩

end SRM
